import Mathlib

/-!
Verification of the `pix` pixel/raster library (channel arithmetic, HWB color
model normalization, region geometry, raster compositing).

The definitions below are shallow embeddings of the Rust sources:
  * `src/channel.rs` — `Ch8`, `Ch16`, `Ch32` channel arithmetic,
  * `src/hwb.rs`     — HWB whiteness/blackness normalization,
  * `src/raster.rs`  — `Region`, `Raster::intersection`, `compose_raster`,
    `RasterBuilder`.

Machine integers are modeled as `Nat`/`Int` with explicit wrap (`% 2^w`)
where the Rust code can overflow or truncate; Rust panics are modeled as
`Option.none`.  `f32` values are modeled by `F32` (a rational plus a NaN
marker); the only floating computations the theorems below rely on are
either pure comparisons/branches (exact in IEEE 754) or small-integer
products that are exactly representable in `f32`.
-/

set_option maxRecDepth 10000

/-! ## Channel arithmetic (src/channel.rs)

An 8-bit channel `Ch8(u8)` is modeled as a `Nat` intended to be `< 256`;
a 16-bit channel `Ch16(u16)` as a `Nat` intended to be `< 65536`.
-/

/-- Embedding of `impl Mul for Ch8`: each operand is widened to `u32`,
bit-replicated (`(l << 4) | (l >> 4)`), multiplied, shifted down 16 and
truncated back to `u8` (`as u8` is the final `% 256`). -/
def Ch8.mul (a b : Nat) : Nat :=
  (((a <<< 4 ||| a >>> 4) * (b <<< 4 ||| b >>> 4)) >>> 16) % 256

/-- Embedding of `impl Div for Ch8`: if `rhs > 0` compute
`((self << 8) / rhs).min(255)` (the `min` makes the `as u8` cast lossless),
otherwise return 0. -/
def Ch8.div (a b : Nat) : Nat :=
  if 0 < b then min ((a <<< 8) / b) 255 else 0

/-- Embedding of `fn scale_i32(a: u8, v: i32) -> i32`:
`c = v * a; ((c + 1) + (c >> 8)) >> 8`.  Arithmetic right shift of an `i32`
by 8 is floor division by 256, which for the positive divisor 256 agrees
with Lean `Int` division. -/
def scale_i32 (a : Nat) (v : Int) : Int :=
  ((v * (a : Int) + 1) + (v * (a : Int)) / 256) / 256

/-- Embedding of `Ch8::lerp_alpha(self=top, dest=bot, alpha)`:
`bot + scale_i32(alpha, top - bot)`, truncated to `u8` (`r as u8`). -/
def Ch8.lerp_alpha (top bot alpha : Nat) : Nat :=
  (((bot : Int) + scale_i32 alpha ((top : Int) - (bot : Int))) % 256).toNat

/-- Embedding of `impl Mul for Ch16`: operands widened to `u64`,
bit-replicated (`(l << 8) | (l >> 8)`), multiplied, shifted down 32 and
truncated to `u16`. -/
def Ch16.mul (a b : Nat) : Nat :=
  (((a <<< 8 ||| a >>> 8) * (b <<< 8 ||| b >>> 8)) >>> 32) % 65536

/-- Embedding of `impl Div for Ch16`: if `rhs > 0` compute
`((self << 16) / rhs).min(65535)`, otherwise 0. -/
def Ch16.div (a b : Nat) : Nat :=
  if 0 < b then min ((a <<< 16) / b) 65535 else 0

/-- Embedding of `Ch16::lerp_alpha`: the alpha channel is first converted
to `u8` through `impl From<Ch16> for u8`, i.e. `(alpha >> 8) as u8`, and
then fed to `scale_i32`; the sum is truncated to `u16`. -/
def Ch16.lerp_alpha (top bot alpha : Nat) : Nat :=
  (((bot : Int) + scale_i32 (alpha >>> 8) ((top : Int) - (bot : Int))) % 65536).toNat

/-! ## f32 model and the 32-bit channel (src/channel.rs)

An `f32` is either NaN or a finite value, modeled as a rational.  IEEE 754
comparisons against NaN are all false, which the branch embeddings below
reproduce explicitly.  The arithmetic appearing in the embedded branches
(`value * 255.0` for `value ∈ {0, 1}` or integral `value ≤ 255`,
`value * 65535.0` for `value ∈ {0, 1}`) is exactly representable in `f32`,
so modeling it by exact rational arithmetic is faithful at every input the
theorems evaluate it on.
-/

/-- Model of a Rust `f32` value. -/
inductive F32 where
  | nan : F32
  | fin (q : ℚ) : F32
deriving DecidableEq

/-- Rounding as performed by `f32::round` (half away from zero) on the
nonnegative values produced by the embedded code paths, i.e. `⌊q + 1/2⌋`. -/
def f32round (q : ℚ) : Int := ⌊q + 1 / 2⌋

/-- Embedding of `impl From<f32> for Ch8`: NaN or negative snaps to 0,
greater than 1.0 snaps to 255, otherwise `(value * 255.0).round() as u8`. -/
def Ch8.from_f32 : F32 → Nat
  | .nan => 0
  | .fin q => if q < 0 then 0 else if 1 < q then 255 else (f32round (q * 255)).toNat

/-- Embedding of `impl From<f32> for Ch16`: the function first executes
`assert!(value >= 0.0 && value <= 1.0)` — NaN or any out-of-range value
fails the assert (modeled as `none`) — then rounds `value * 65535.0`. -/
def Ch16.from_f32 : F32 → Option Nat
  | .nan => none
  | .fin q => if 0 ≤ q ∧ q ≤ 1 then some (f32round (q * 65535)).toNat else none

/-- Embedding of `Ch32::new` (also `impl From<f32> for Ch32`): NaN or
negative snaps to 0.0, greater than 1.0 snaps to 1.0, else stored as-is.
The stored `f32` is modeled as a rational. -/
def Ch32.new : F32 → ℚ
  | .nan => 0
  | .fin q => if q < 0 then 0 else if 1 < q then 1 else q

/-- Embedding of `impl From<u8> for Ch32`: the source computes
`value as f32 * 255.0`.  Both the `u8 → f32` conversion and the product
(at most 65025) are exact in `f32`, so the rational model is exact. -/
def Ch32.from_u8 (value : Nat) : ℚ := (value : ℚ) * 255

/-- Embedding of `impl From<Ch32> for u8`: `(value * 255.0).round() as u8`.
The release-mode `as u8` cast of an `f32` saturates to `0..=255`
(the debug build would already have failed the
`debug_assert!(value >= 0.0 && value <= 1.0)`). -/
def Ch32.into_u8 (c : ℚ) : Nat := (max 0 (min (f32round (c * 255)) 255)).toNat

/-- Embedding of `impl Mul for Ch32`: `self.0 * rhs.0` on `f32`, modeled as
the exact rational product.  The theorems only use commutativity and
multiplication by exactly 1.0, both of which are exact in IEEE 754. -/
def Ch32.mul (a b : ℚ) : ℚ := a * b

/-- Embedding of `impl Div for Ch32`: if `rhs > 0.0` compute
`(self.0 / rhs.0).min(1.0)`, else return 0.0.  The rational quotient is an
idealization of the `f32` quotient; the theorems only use the `rhs = 0`
branch (exact) and saturation for `rhs < self` (also exact in IEEE 754: a
real quotient above 1 rounds to a value at least 1.0, so the `min` yields
exactly 1.0). -/
def Ch32.div (a b : ℚ) : ℚ := if 0 < b then min (a / b) 1 else 0

/-! ## HWB whiteness/blackness normalization (src/hwb.rs)

`HwbModel::whiteness_blackness` is generic over the channel type; we embed
it for an integer channel with maximum `M` (255 for `Ch8`, 65535 for
`Ch16`).  The channel `+`/`-` operators and `Into<f32>` used by the source
live in `el.rs`, which is not part of the sources under verification, so
they are modeled from the spec (see below). -/

/-- Modelled from the spec: channel addition (defined in `el.rs`, not under
the verified sources).  Spec §3: "arithmetic results are always
clamped/saturated into range", hence saturating addition at `M`.
Channel subtraction is `Nat` truncated subtraction, which already
saturates at zero. -/
def Chan.satAdd (M a b : Nat) : Nat := min (a + b) M

/-- Modelled from the spec: `Into<f32>` for an integer channel (defined in
`el.rs`, not under the verified sources).  Spec §3/§4.1: a channel stores a
\[0,1\] intensity in an integer surrogate with maximum `M`, so its floating
value is `c / M`. -/
def Chan.intoF32 (M c : Nat) : ℚ := (c : ℚ) / (M : ℚ)

/-- Generic `Chan::from(f32)` on the in-range values produced inside
`whiteness_blackness` (mirrors `Ch8.from_f32`; `Ch16`'s assert cannot fire
because the argument is in `[0,1]` there). -/
def Chan.fromF32 (M : Nat) (q : ℚ) : Nat :=
  if q < 0 then 0 else if 1 < q then M else (f32round (q * M)).toNat

/-- Modelled from the spec: channel addition and subtraction for the
float-backed `Ch32` channel (defined in `el.rs`, not under the verified
sources).  Spec §3: "arithmetic results are always clamped/saturated into
range", hence saturation of the sum at 1 and of the difference at 0. -/
def Ch32.satAdd (a b : ℚ) : ℚ := min (a + b) 1

/-- Modelled from the spec: saturating `Ch32` channel subtraction (see
`Ch32.satAdd`). -/
def Ch32.satSub (a b : ℚ) : ℚ := max (a - b) 0

/-- Embedding of `HwbModel::whiteness_blackness`: if
`whiteness + blackness - blackness < whiteness` (with saturating channel
arithmetic this detects `whiteness + blackness > MAX`), convert both to
f32, scale by `ratio = 1.0 / (w + b)` and convert back; otherwise return
the pair unchanged. -/
def HwbModel.whiteness_blackness (M w b : Nat) : Nat × Nat :=
  if Chan.satAdd M w b - b < w then
    (Chan.fromF32 M (Chan.intoF32 M w * (1 / (Chan.intoF32 M w + Chan.intoF32 M b))),
     Chan.fromF32 M (Chan.intoF32 M b * (1 / (Chan.intoF32 M w + Chan.intoF32 M b))))
  else (w, b)

/-- Embedding of `HwbModel::whiteness_blackness` instantiated at the
float-backed `Ch32` channel (the `Hwb32`/`Hwba32`/`Hwba32p` formats):
`Into<f32>` is the identity for `Ch32`, and `P::Chan::from(f32)` is
`Ch32::new` (from src/channel.rs), so the scaled components go through its
saturating constructor.  `f32` arithmetic is idealized as exact rational
arithmetic. -/
def HwbModel.whiteness_blackness32 (w b : ℚ) : ℚ × ℚ :=
  if Ch32.satSub (Ch32.satAdd w b) b < w then
    (Ch32.new (F32.fin (w * (1 / (w + b)))), Ch32.new (F32.fin (b * (1 / (w + b)))))
  else (w, b)

/-! ## Regions and rasters (src/raster.rs)

`Region` stores four `i32` fields; we model `i32` values as `Int` and make
every wrapping cast or saturating operation of the source explicit. -/

/-- Two's-complement wrap of an integer into the `i32` range (the result of
release-mode overflowing `i32` arithmetic). -/
def wrap32 (z : Int) : Int := (z + 2147483648) % 4294967296 - 2147483648

/-- Saturation into the `i32` range (`i32::saturating_add` after an exact
integer sum). -/
def sat32 (z : Int) : Int := max (min z 2147483647) (-2147483648)

/-- Release-mode `i32::abs`: ordinary absolute value except that
`i32::MIN.abs()` wraps back to `i32::MIN`. -/
def i32abs (z : Int) : Int := if z = -2147483648 then z else |z|

/-- Release-mode `as usize` cast of an `i32` value (sign extension into a
64-bit unsigned integer). -/
def usizeOf (z : Int) : Nat := if 0 ≤ z then z.toNat else (18446744073709551616 + z).toNat

/-- Embedding of `struct Region { x, y, width, height: i32 }`. -/
structure Region where
  x : Int
  y : Int
  width : Int
  height : Int
deriving DecidableEq

/-- Embedding of `Region::new(x: i32, y: i32, width: u32, height: u32)`:
`i32::try_from(width).unwrap_or(0)` keeps a `u32` extent only when it fits
in an `i32`, otherwise the extent collapses to 0. -/
def Region.new (x y : Int) (width height : Nat) : Region :=
  ⟨x, y, if (width : Int) ≤ 2147483647 then (width : Int) else 0,
    if (height : Int) ≤ 2147483647 then (height : Int) else 0⟩

/-- Embedding of `Region::right`: `self.x.saturating_add(self.width)`. -/
def Region.right (r : Region) : Int := sat32 (r.x + r.width)

/-- Embedding of `Region::bottom`: `self.y.saturating_add(self.height)`. -/
def Region.bottom (r : Region) : Int := sat32 (r.y + r.height)

/-- Embedding of `impl From<()> for Region`: the whole-extent sentinel
`Region::new(0, 0, i32::MAX as u32, i32::MAX as u32)`. -/
def Region.all : Region := Region.new 0 0 2147483647 2147483647

/-- Embedding of `Region::intersection`: `x0 = x.max(rhs.x)`,
`x1 = right().min(rhs.right())`, then `(x1 - x0) as u32` — a release-mode
wrapping `i32` subtraction reinterpreted as `u32`, which is exactly
`(x1 - x0) mod 2^32` — fed to `Region::new` (likewise for y). -/
def Region.intersection (a b : Region) : Region :=
  Region.new (max a.x b.x) (max a.y b.y)
    ((min a.right b.right - max a.x b.x) % 4294967296).toNat
    ((min a.bottom b.bottom - max a.y b.y) % 4294967296).toNat

/-- Embedding of `struct Raster<P>`: width, height (nonnegative `i32`
values, hence `Nat` here) and the pixel array, modeled as a total function
from coordinates to pixels (row-major buffer of exactly `width * height`
pixels in the source). -/
structure Raster (γ : Type) where
  width : Nat
  height : Nat
  pix : Nat → Nat → γ

/-- Embedding of `Raster::intersection`: clip a region to the raster
bounds: `x0 = reg.x.max(0)`, `x1 = reg.right().min(self.width)`,
`w = (x1 - x0).max(0) as u32` (the subtraction cannot overflow for a real
raster, whose width fits in `i32`; the `max 0` makes the cast lossless). -/
def Raster.intersection {γ : Type} (r : Raster γ) (reg : Region) : Region :=
  Region.new (max reg.x 0) (max reg.y 0)
    ((max (min reg.right (r.width : Int) - max reg.x 0) 0).toNat)
    ((max (min reg.bottom (r.height : Int) - max reg.y 0) 0).toNat)

/-- Embedding of `Raster::compose_raster(to, src, from)`.

The source computes the negative-origin overhangs
`tx = to.x.min(0).abs()` (etc.), clips `to` against `self` and `from`
against `src`, takes the minimum width/height, then builds the shifted
regions `Region::new(to.x + fx, to.y + fy, width, height)` and
`Region::new(from.x + tx, from.y + ty, width, height)` and iterates:

```
let srows = src.rows().skip(from.y as usize);
let drows = self.rows_mut().skip(to.y as usize);
for (drow, srow) in drows.take(height as usize).zip(srows) {
    let drow = &mut drow[to.x as usize..];  // panics if to.x > row length
    let srow = &srow[from.x as usize..];    // panics if from.x > row length
    for (d, s) in drow.iter_mut().take(width as usize).zip(srow) {
        *d = s.convert();
    }
}
```

Row pairs processed: `min(height, dst rows after skip, src rows after
skip)`; if at least one pair is processed and a slice start exceeds its row
length the iteration panics (`none` here).  Otherwise each processed row
writes `min(width, dst.width - to.x, src.width - from.x)` pixels (the `zip`
truncates to the shorter slice), destination pixel `(to.x + i, to.y + k)`
receiving the converted source pixel `(from.x + i, from.y + k)`.
`convert` is the format conversion, abstracted as the function `cv`. -/
def Raster.compose_raster {α β : Type} (cv : α → β) (dst : Raster β)
    (toR : Region) (src : Raster α) (fr : Region) : Option (Raster β) :=
  let tx := i32abs (min toR.x 0)
  let ty := i32abs (min toR.y 0)
  let fx := i32abs (min fr.x 0)
  let fy := i32abs (min fr.y 0)
  let toC := dst.intersection toR
  let frC := src.intersection fr
  let width := min toC.width frC.width
  let height := min toC.height frC.height
  if 0 < width ∧ 0 < height then
    let tox := usizeOf (wrap32 (toC.x + fx))
    let toy := usizeOf (wrap32 (toC.y + fy))
    let frx := usizeOf (wrap32 (frC.x + tx))
    let fry := usizeOf (wrap32 (frC.y + ty))
    let nrows := min (min height.toNat (dst.height - toy)) (src.height - fry)
    if 0 < nrows ∧ (dst.width < tox ∨ src.width < frx) then none
    else
      let ncols := min (min width.toNat (dst.width - tox)) (src.width - frx)
      let npix : Nat → Nat → β := fun px py =>
        if tox ≤ px ∧ px < tox + ncols ∧ toy ≤ py ∧ py < toy + nrows then
          cv (src.pix (frx + (px - tox)) (fry + (py - toy)))
        else dst.pix px py
      some { dst with pix := npix }
  else some dst

/-! ## Raster builders (src/raster.rs)

A pixel with channel type `Ch8` and `k` channels occupies exactly `k`
bytes (`size_of::<P>() = k`), and with `Ch16` exactly `2 * k` bytes; in
both cases the builder length check `len * size_of::<P>() ==
capacity * size_of::<element>()` reduces to `width * height * k ==
buffer.len()`.  `i32::try_from(width).unwrap()` panics (`none`) when a
dimension exceeds `i32::MAX`. -/

/-- Embedding of `RasterBuilder::with_color`: dimensions are converted with
`i32::try_from(..).unwrap()` and the buffer is filled with `width * height`
copies of the color; a zero dimension is accepted (empty buffer). -/
def RasterBuilder.with_color {γ : Type} (width height : Nat) (clr : γ) :
    Option (Raster γ) :=
  if width ≤ 2147483647 ∧ height ≤ 2147483647 then
    some ⟨width, height, fun _ _ => clr⟩
  else none

/-- Embedding of `RasterBuilder::with_u8_buffer` for a pixel format with
`k` `Ch8` channels: after the dimension conversions it executes
`assert!(len > 0)` — so a zero pixel count panics (`none`) — then checks
`len * size_of::<P>() == capacity`, and reinterprets the byte buffer as
row-major pixels (each pixel the `k` consecutive bytes at its index). -/
def RasterBuilder.with_u8_buffer (k width height : Nat) (buffer : List Nat) :
    Option (Raster (List Nat)) :=
  if width ≤ 2147483647 ∧ height ≤ 2147483647 then
    if width * height = 0 then none
    else if width * height * k = buffer.length then
      some ⟨width, height, fun x y => (buffer.drop ((y * width + x) * k)).take k⟩
    else none
  else none

/-- Embedding of `RasterBuilder::with_u16_buffer` for a pixel format with
`k` `Ch16` channels: structurally identical to `with_u8_buffer` (the size
check `len * 2k == capacity * 2` reduces to the same equation), including
the `assert!(len > 0)`. -/
def RasterBuilder.with_u16_buffer (k width height : Nat) (buffer : List Nat) :
    Option (Raster (List Nat)) :=
  if width ≤ 2147483647 ∧ height ≤ 2147483647 then
    if width * height = 0 then none
    else if width * height * k = buffer.length then
      some ⟨width, height, fun x y => (buffer.drop ((y * width + x) * k)).take k⟩
    else none
  else none
/-! Bit-replication bridges: for in-range operands the `(x << k) | (x >> k)`
trick equals `2^k * x + x / 2^k` because the two parts occupy disjoint bits. -/

theorem ch8_rep_eq (a : Nat) (h : a < 256) :
    (a <<< 4 ||| a >>> 4) = 16 * a + a / 16 := by
  have h1 : a <<< 4 = 2 ^ 4 * a := by rw [Nat.shiftLeft_eq]; ring
  have h2 : a >>> 4 = a / 16 := by simp [Nat.shiftRight_eq_div_pow]
  have h3 : a / 16 < 2 ^ 4 := by omega
  rw [h1, h2, ← Nat.mul_add_lt_is_or h3]

theorem ch16_rep_eq (a : Nat) (h : a < 65536) :
    (a <<< 8 ||| a >>> 8) = 256 * a + a / 256 := by
  have h1 : a <<< 8 = 2 ^ 8 * a := by rw [Nat.shiftLeft_eq]; ring
  have h2 : a >>> 8 = a / 256 := by simp [Nat.shiftRight_eq_div_pow]
  have h3 : a / 256 < 2 ^ 8 := by omega
  rw [h1, h2, ← Nat.mul_add_lt_is_or h3]

theorem ch16_mul_max_eq (x : Nat) (h : x < 65536) :
    Ch16.mul x 65535 = if x = 0 then 0 else if x ≤ 255 then x - 1 else x := by
  unfold Ch16.mul
  rw [ch16_rep_eq x h, ch16_rep_eq 65535 (by norm_num), Nat.shiftRight_eq_div_pow]
  show (256 * x + x / 256) * 16777215 / 4294967296 % 65536 = _
  have hq : (256 * x + x / 256) * 16777215
      = 4294967040 * x + 16777215 * (x / 256) := by ring
  rw [hq, Nat.mod_eq_of_lt
    (by omega : (4294967040 * x + 16777215 * (x / 256)) / 4294967296 < 65536)]
  obtain ⟨q, r, hr, hx⟩ : ∃ q r, r < 256 ∧ x = 256 * q + r :=
    ⟨x / 256, x % 256, Nat.mod_lt _ (by norm_num), (Nat.div_add_mod x 256).symm⟩
  subst hx
  have hdq : (256 * q + r) / 256 = q := by omega
  rw [hdq]
  rcases Nat.eq_zero_or_pos q with hq0 | hq1
  · subst hq0
    rcases Nat.eq_zero_or_pos r with hr0 | hr1
    · subst hr0; norm_num
    · rw [Nat.div_eq_of_lt_le
        (by omega : (r - 1) * 4294967296 ≤ 4294967040 * (256 * 0 + r) + 16777215 * 0)
        (by omega)]
      split_ifs <;> omega
  · rw [Nat.div_eq_of_lt_le
      (by omega : (256 * q + r) * 4294967296
        ≤ 4294967040 * (256 * q + r) + 16777215 * q)
      (by omega)]
    split_ifs <;> omega

theorem ch8_mul_max_eq (x : Nat) (h : x < 256) :
    Ch8.mul x 255 = if x = 0 then 0 else if x ≤ 15 then x - 1 else x := by
  revert h
  revert x
  decide

/-- C5 counterexample: for Ch8, `x * MAX` is **not** `x` for all channel
values: `Ch8(1) * Ch8(255) = Ch8(0)` (the bit-replicated product
`16 * 4095 = 65520` falls just short of `2^16`). -/
theorem ch8_mul_one_max_cex : Ch8.mul 1 255 = 0 ∧ (1 : Nat) ≠ 0 := by decide

/-- C5 (amended): multiplication is commutative for all three channel
precisions, and `Ch32`'s `x * MAX = x` holds exactly; but for the integer
precisions `x * MAX` equals `x` only for `x = 0` or `x ≥ 16` (`Ch8`) /
`x ≥ 256` (`Ch16`), and equals `x - 1` for `1 ≤ x ≤ 15` (`Ch8`) /
`1 ≤ x ≤ 255` (`Ch16`). -/
theorem ch_mul_comm_and_max :
    (∀ a b : Nat, Ch8.mul a b = Ch8.mul b a) ∧
    (∀ a b : Nat, Ch16.mul a b = Ch16.mul b a) ∧
    (∀ a b : ℚ, Ch32.mul a b = Ch32.mul b a) ∧
    (∀ a : ℚ, Ch32.mul a 1 = a) ∧
    (∀ x : Fin 256,
      Ch8.mul x.val 255 = if x.val = 0 then 0 else if x.val ≤ 15 then x.val - 1 else x.val) ∧
    (∀ x : Fin 65536,
      Ch16.mul x.val 65535 = if x.val = 0 then 0 else if x.val ≤ 255 then x.val - 1 else x.val) := by
  refine ⟨?_, ?_, ?_, ?_, ?_, ?_⟩
  · intro a b; unfold Ch8.mul; rw [Nat.mul_comm]
  · intro a b; unfold Ch16.mul; rw [Nat.mul_comm]
  · intro a b; unfold Ch32.mul; rw [mul_comm]
  · intro a; unfold Ch32.mul; rw [mul_one]
  · intro x; exact ch8_mul_max_eq x.val x.isLt
  · intro x; exact ch16_mul_max_eq x.val x.isLt

/-- C6 counterexample: `(a * b) / b` is **not** within ±1 of `a` for
`b ≠ MIN` on Ch8: with `a = 255`, `b = 1` the product `Ch8(255) * Ch8(1)`
is `Ch8(0)` and `0 / 1 = 0`, which is 255 units away from `a`. -/
theorem ch8_div_mul_cex :
    Ch8.div (Ch8.mul 255 1) 1 = 0 ∧ ¬(255 - 1 ≤ (0 : Nat)) := by decide

/-- C6 (amended): for every channel precision, `a / MIN = MIN` for every
`a`, and division saturates at `MAX` whenever `MIN < b < a` (for `Ch32`,
`MIN = 0.0` and `MAX = 1.0`); the `(a * b) / b = a ± 1` round-trip of the
original claim does not hold in general. -/
theorem ch_div_zero_and_saturation :
    (∀ a : Nat, Ch8.div a 0 = 0) ∧
    (∀ a b : Nat, 0 < b → b < a → Ch8.div a b = 255) ∧
    (∀ a : Nat, Ch16.div a 0 = 0) ∧
    (∀ a b : Nat, 0 < b → b < a → Ch16.div a b = 65535) ∧
    (∀ a : ℚ, Ch32.div a 0 = 0) ∧
    (∀ a b : ℚ, 0 < b → b < a → Ch32.div a b = 1) := by
  refine ⟨fun a => by simp [Ch8.div], ?_, fun a => by simp [Ch16.div], ?_,
    fun a => by simp [Ch32.div], ?_⟩
  · intro a b hb hba
    unfold Ch8.div
    rw [if_pos hb, Nat.shiftLeft_eq]
    have h255 : 255 ≤ a * 2 ^ 8 / b := by
      rw [Nat.le_div_iff_mul_le hb]
      nlinarith
    omega
  · intro a b hb hba
    unfold Ch16.div
    rw [if_pos hb, Nat.shiftLeft_eq]
    have h65535 : 65535 ≤ a * 2 ^ 16 / b := by
      rw [Nat.le_div_iff_mul_le hb]
      nlinarith
    omega
  · intro a b hb hba
    unfold Ch32.div
    rw [if_pos hb, min_eq_right ((one_le_div hb).mpr hba.le)]

/-- C6 witness: the amended theorem applied at `b = MIN` and at concrete
`MIN < b < a` pairs for each of the three precisions. -/
theorem ch_div_zero_and_saturation_witness :
    Ch8.div 10 0 = 0 ∧ Ch8.div 10 3 = 255 ∧
    Ch16.div 10 0 = 0 ∧ Ch16.div 10 3 = 65535 ∧
    Ch32.div (3 / 4) 0 = 0 ∧ Ch32.div (3 / 4) (1 / 2) = 1 :=
  ⟨ch_div_zero_and_saturation.1 10,
   ch_div_zero_and_saturation.2.1 10 3 (by decide) (by decide),
   ch_div_zero_and_saturation.2.2.1 10,
   ch_div_zero_and_saturation.2.2.2.1 10 3 (by decide) (by decide),
   ch_div_zero_and_saturation.2.2.2.2.1 (3 / 4),
   ch_div_zero_and_saturation.2.2.2.2.2 (3 / 4) (1 / 2) (by norm_num) (by norm_num)⟩

theorem scale_i32_err (a : Nat) (v : Int) (ha : a ≤ 255) (hv1 : -255 ≤ v)
    (hv2 : v ≤ 255) :
    -255 ≤ 255 * scale_i32 a v - v * (a : Int) ∧
      255 * scale_i32 a v - v * (a : Int) ≤ 255 := by
  unfold scale_i32
  have ha' : (a : Int) ≤ 255 := by exact_mod_cast ha
  have ha0 : (0 : Int) ≤ (a : Int) := by positivity
  have hlb : -65025 ≤ v * (a : Int) := by nlinarith
  have hub : v * (a : Int) ≤ 65025 := by nlinarith
  generalize v * (a : Int) = c at hlb hub ⊢
  omega

theorem scale_i32_range (a : Nat) (v : Int) (ha : a ≤ 255) (hv1 : -255 ≤ v)
    (hv2 : v ≤ 255) :
    min v 0 ≤ scale_i32 a v ∧ scale_i32 a v ≤ max v 0 := by
  unfold scale_i32
  have ha' : (a : Int) ≤ 255 := by exact_mod_cast ha
  have ha0 : (0 : Int) ≤ (a : Int) := by positivity
  rcases le_or_lt 0 v with hv | hv
  · have hc0 : 0 ≤ v * (a : Int) := mul_nonneg hv ha0
    have hcv : v * (a : Int) ≤ 255 * v := by nlinarith
    generalize v * (a : Int) = c at hc0 hcv ⊢
    omega
  · have hc0 : v * (a : Int) ≤ 0 := by nlinarith
    have hcv : 255 * v ≤ v * (a : Int) := by nlinarith
    generalize v * (a : Int) = c at hc0 hcv ⊢
    omega

/-- C7 counterexample: `Ch16::lerp_alpha` converts `alpha` to a `u8`
(keeping only the high byte) before scaling, so
`lerp_alpha(top = 65535, bot = 0, alpha = 255)` returns 0 while the
continuous value `bot + (alpha/MAX)·(top − bot)` is 255, an error of 255
units — far beyond ±1 unit in the last place. -/
theorem ch16_lerp_alpha_cex :
    Ch16.lerp_alpha 65535 0 255 = 0 ∧
      ¬(|65535 * (Ch16.lerp_alpha 65535 0 255 : Int)
          - (65535 * 0 + 255 * ((65535 : Int) - 0))| ≤ 65535) := by decide

/-- C7 (amended): for Ch8, `lerp_alpha(top, bot, alpha)` differs from the
exactly computed continuous value `bot + (alpha/MAX)·(top − bot)` by at
most 1 unit in the last place, for all inputs (stated with both sides
scaled by `MAX = 255`); the Ch16 variant does not satisfy the bound
because it truncates `alpha` to its high byte. -/
theorem ch8_lerp_alpha_ulp (top bot alpha : Fin 256) :
    |255 * (Ch8.lerp_alpha top.val bot.val alpha.val : Int)
        - (255 * (bot.val : Int)
          + (alpha.val : Int) * ((top.val : Int) - (bot.val : Int)))| ≤ 255 := by
  obtain ⟨t, ht⟩ := top
  obtain ⟨b, hb⟩ := bot
  obtain ⟨a, ha⟩ := alpha
  simp only
  have hb' : (b : Int) ≤ 255 := by exact_mod_cast Nat.lt_succ_iff.mp (by omega)
  have ht' : (t : Int) ≤ 255 := by exact_mod_cast Nat.lt_succ_iff.mp (by omega)
  have hb0 : (0 : Int) ≤ (b : Int) := by positivity
  have ht0 : (0 : Int) ≤ (t : Int) := by positivity
  have hv1 : -255 ≤ (t : Int) - (b : Int) := by omega
  have hv2 : (t : Int) - (b : Int) ≤ 255 := by omega
  have hrange := scale_i32_range a ((t : Int) - b) (by omega) hv1 hv2
  have herr := scale_i32_err a ((t : Int) - b) (by omega) hv1 hv2
  unfold Ch8.lerp_alpha
  have hlo : 0 ≤ (b : Int) + scale_i32 a ((t : Int) - b) := by
    rcases hrange with ⟨h1, _⟩
    omega
  have hhi : (b : Int) + scale_i32 a ((t : Int) - b) < 256 := by
    rcases hrange with ⟨_, h2⟩
    omega
  rw [Int.emod_eq_of_lt hlo hhi, Int.toNat_of_nonneg hlo]
  have hcomm : (a : Int) * ((t : Int) - b) = ((t : Int) - b) * (a : Int) :=
    mul_comm _ _
  rw [hcomm, abs_le]
  omega

theorem f32round_eq (q : ℚ) (n : ℤ) (h1 : (n : ℚ) ≤ q + 1 / 2)
    (h2 : q + 1 / 2 < n + 1) : f32round q = n := by
  unfold f32round
  exact Int.floor_eq_iff.mpr ⟨h1, by exact_mod_cast h2⟩

/-- C3 counterexample: `Ch16`'s `From<f32>` does not saturate — its
`assert!(value >= 0.0 && value <= 1.0)` fails (a panic, modeled `none`)
for the out-of-range value 1.5, where the claim demands `MAX`. -/
theorem ch16_from_f32_cex :
    Ch16.from_f32 (F32.fin (3 / 2)) = none ∧
      Ch16.from_f32 (F32.fin (3 / 2)) ≠ some 65535 := by
  refine ⟨by norm_num [Ch16.from_f32], ?_⟩
  have h : Ch16.from_f32 (F32.fin (3 / 2)) = none := by norm_num [Ch16.from_f32]
  rw [h]
  simp

/-- C3 (amended): `Ch8::from(f32)` and `Ch32::new` saturate exactly as
claimed — `from(1.0) = MAX`, `from(0.0) = MIN`, NaN and negative inputs
give `MIN`, inputs above 1.0 give `MAX`, never panicking — but
`Ch16::from(f32)` instead asserts `0.0 <= value <= 1.0` and panics on NaN
or out-of-range inputs; within range it still maps 1.0 to `MAX` and 0.0 to
`MIN`. -/
theorem channel_from_f32_saturation :
    (Ch8.from_f32 (F32.fin 1) = 255 ∧ Ch8.from_f32 (F32.fin 0) = 0 ∧
      Ch8.from_f32 F32.nan = 0 ∧
      (∀ q : ℚ, q < 0 → Ch8.from_f32 (F32.fin q) = 0) ∧
      (∀ q : ℚ, 1 < q → Ch8.from_f32 (F32.fin q) = 255)) ∧
    (Ch32.new (F32.fin 1) = 1 ∧ Ch32.new (F32.fin 0) = 0 ∧
      Ch32.new F32.nan = 0 ∧
      (∀ q : ℚ, q < 0 → Ch32.new (F32.fin q) = 0) ∧
      (∀ q : ℚ, 1 < q → Ch32.new (F32.fin q) = 1)) ∧
    (Ch16.from_f32 (F32.fin 1) = some 65535 ∧
      Ch16.from_f32 (F32.fin 0) = some 0 ∧ Ch16.from_f32 F32.nan = none ∧
      (∀ q : ℚ, ¬(0 ≤ q ∧ q ≤ 1) → Ch16.from_f32 (F32.fin q) = none)) := by
  have r255 : f32round 255 = 255 := f32round_eq _ 255 (by norm_num) (by norm_num)
  have r0 : f32round 0 = 0 := f32round_eq _ 0 (by norm_num) (by norm_num)
  have r65535 : f32round 65535 = 65535 :=
    f32round_eq _ 65535 (by norm_num) (by norm_num)
  refine ⟨⟨?_, ?_, rfl, ?_, ?_⟩, ⟨by norm_num [Ch32.new], by norm_num [Ch32.new],
    rfl, ?_, ?_⟩, ⟨?_, ?_, rfl, ?_⟩⟩
  · norm_num [Ch8.from_f32, r255]
    decide
  · norm_num [Ch8.from_f32, r0]
  · intro q hq
    simp [Ch8.from_f32, if_pos hq]
  · intro q hq
    have h0 : ¬(q < 0) := by linarith
    simp [Ch8.from_f32, h0, hq]
  · intro q hq
    simp [Ch32.new, if_pos hq]
  · intro q hq
    have h0 : ¬(q < 0) := by linarith
    simp [Ch32.new, h0, hq]
  · norm_num [Ch16.from_f32, r65535]
    decide
  · norm_num [Ch16.from_f32, r0]
  · intro q hq
    simp [Ch16.from_f32, hq]

/-- C3 witness: the amended theorem applied at the concrete out-of-range
inputs `-2` and `3/2`. -/
theorem channel_from_f32_saturation_witness :
    Ch8.from_f32 (F32.fin (-2)) = 0 ∧ Ch8.from_f32 (F32.fin (3 / 2)) = 255 ∧
      Ch32.new (F32.fin (-2)) = 0 ∧ Ch32.new (F32.fin (3 / 2)) = 1 ∧
      Ch16.from_f32 (F32.fin (-2)) = none :=
  ⟨channel_from_f32_saturation.1.2.2.2.1 (-2) (by norm_num),
   channel_from_f32_saturation.1.2.2.2.2 (3 / 2) (by norm_num),
   channel_from_f32_saturation.2.1.2.2.2.1 (-2) (by norm_num),
   channel_from_f32_saturation.2.1.2.2.2.2 (3 / 2) (by norm_num),
   channel_from_f32_saturation.2.2.2.2.2 (-2) (by norm_num)⟩

/-- C4: evaluation of the buggy precision conversion.  `impl From<u8> for
Ch32` computes `value as f32 * 255.0`, so the 8-bit value 1 maps to the
channel value 255.0 — far outside the closed range \[0,1\] that `Ch32`
documents and that `From<Ch32> for u8` debug-asserts — and the release
round-trip back to `u8` returns 255, not 1. -/
theorem ch32_from_u8_bug_eval :
    Ch32.from_u8 1 = 255 ∧ (1 : ℚ) < Ch32.from_u8 1 ∧
      Ch32.into_u8 (Ch32.from_u8 1) = 255 ∧ (255 : Nat) ≠ 1 := by
  have r1 : f32round 65025 = 65025 :=
    f32round_eq _ 65025 (by norm_num) (by norm_num)
  refine ⟨by norm_num [Ch32.from_u8], by norm_num [Ch32.from_u8], ?_, by decide⟩
  norm_num [Ch32.from_u8, Ch32.into_u8, r1]
  decide

theorem toNat_cast_q (z : ℤ) (h : 0 ≤ z) : ((z.toNat : Nat) : ℚ) = (z : ℚ) := by
  exact_mod_cast Int.toNat_of_nonneg h

/-- C8: `whiteness_blackness` normalization for every HWB pixel.  For an
integer channel with maximum `M` (255 for `Ch8`, 65535 for `Ch16`): pairs
with `w + b ≤ MAX` are unchanged, and when `w + b > MAX` both components
are replaced by the proportional rescale `(round(M·w/(w+b)),
round(M·b/(w+b)))` — each within 1/2 unit of the exact proportional value
(ratio preserved up to rounding) and the resulting sum within 1 unit of
`MAX`.  For the float-backed `Ch32` channel (`MAX = 1.0`): pairs with
`w + b ≤ 1` are unchanged, and when `w + b > 1` the result is exactly
`(w/(w+b), b/(w+b))`, whose sum is exactly 1 and whose ratio equals
`w : b` exactly. -/
theorem hwb_whiteness_blackness_norm :
    (∀ M w b : Nat, 0 < M → w ≤ M → b ≤ M →
      (w + b ≤ M → HwbModel.whiteness_blackness M w b = (w, b)) ∧
      (M < w + b →
        HwbModel.whiteness_blackness M w b
          = ((f32round ((M : ℚ) * w / (w + b))).toNat,
             (f32round ((M : ℚ) * b / (w + b))).toNat) ∧
        |(((HwbModel.whiteness_blackness M w b).1 : ℚ)) - (M : ℚ) * w / (w + b)|
          ≤ 1 / 2 ∧
        |(((HwbModel.whiteness_blackness M w b).2 : ℚ)) - (M : ℚ) * b / (w + b)|
          ≤ 1 / 2 ∧
        |((((HwbModel.whiteness_blackness M w b).1
            + (HwbModel.whiteness_blackness M w b).2 : Nat)) : ℚ) - (M : ℚ)|
          ≤ 1)) ∧
    (∀ w b : ℚ, 0 ≤ w → w ≤ 1 → 0 ≤ b → b ≤ 1 →
      (w + b ≤ 1 → HwbModel.whiteness_blackness32 w b = (w, b)) ∧
      (1 < w + b →
        HwbModel.whiteness_blackness32 w b = (w / (w + b), b / (w + b)) ∧
        w / (w + b) + b / (w + b) = 1 ∧
        w / (w + b) * b = b / (w + b) * w)) := by
  constructor
  · intro M w b hM hw hb
    constructor
    · intro hle
      unfold HwbModel.whiteness_blackness Chan.satAdd
      rw [if_neg]
      omega
    · intro hgt
      have hcond : Chan.satAdd M w b - b < w := by
        unfold Chan.satAdd
        omega
      have hM0 : (M : ℚ) ≠ 0 := by positivity
      have hs1 : (1 : ℚ) ≤ (w : ℚ) + (b : ℚ) := by
        have h1 : 1 ≤ w + b := by omega
        have h2 : ((1 : Nat) : ℚ) ≤ ((w + b : Nat) : ℚ) := by exact_mod_cast h1
        push_cast at h2
        linarith
      have hs0 : (0 : ℚ) < (w : ℚ) + (b : ℚ) := by linarith
      have harg1 : Chan.intoF32 M w * (1 / (Chan.intoF32 M w + Chan.intoF32 M b))
          = (w : ℚ) / ((w : ℚ) + b) := by
        unfold Chan.intoF32
        field_simp
      have harg2 : Chan.intoF32 M b * (1 / (Chan.intoF32 M w + Chan.intoF32 M b))
          = (b : ℚ) / ((w : ℚ) + b) := by
        unfold Chan.intoF32
        field_simp
      have heq : HwbModel.whiteness_blackness M w b
          = ((f32round ((M : ℚ) * w / (w + b))).toNat,
             (f32round ((M : ℚ) * b / (w + b))).toNat) := by
        unfold HwbModel.whiteness_blackness
        rw [if_pos hcond, harg1, harg2]
        unfold Chan.fromF32
        have h1n : ¬((w : ℚ) / ((w : ℚ) + b) < 0) := not_lt.mpr (by positivity)
        have h1g : ¬(1 < (w : ℚ) / ((w : ℚ) + b)) := by
          rw [not_lt, div_le_one hs0]
          have hb0 : (0 : ℚ) ≤ (b : ℚ) := by positivity
          linarith
        have h2n : ¬((b : ℚ) / ((w : ℚ) + b) < 0) := not_lt.mpr (by positivity)
        have h2g : ¬(1 < (b : ℚ) / ((w : ℚ) + b)) := by
          rw [not_lt, div_le_one hs0]
          have hw0 : (0 : ℚ) ≤ (w : ℚ) := by positivity
          linarith
        rw [if_neg h1n, if_neg h1g, if_neg h2n, if_neg h2g]
        have e1 : (w : ℚ) / ((w : ℚ) + b) * M = (M : ℚ) * w / (w + b) := by ring
        have e2 : (b : ℚ) / ((w : ℚ) + b) * M = (M : ℚ) * b / (w + b) := by ring
        rw [e1, e2]
      have hxw : (0 : ℚ) ≤ (M : ℚ) * w / (w + b) := by positivity
      have hxb : (0 : ℚ) ≤ (M : ℚ) * b / (w + b) := by positivity
      have hrnw : (0 : ℤ) ≤ f32round ((M : ℚ) * w / (w + b)) :=
        Int.floor_nonneg.mpr (by linarith)
      have hrnb : (0 : ℤ) ≤ f32round ((M : ℚ) * b / (w + b)) :=
        Int.floor_nonneg.mpr (by linarith)
      have hflw := Int.floor_le ((M : ℚ) * w / (w + b) + 1 / 2)
      have hfgw := Int.lt_floor_add_one ((M : ℚ) * w / (w + b) + 1 / 2)
      have hflb := Int.floor_le ((M : ℚ) * b / (w + b) + 1 / 2)
      have hfgb := Int.lt_floor_add_one ((M : ℚ) * b / (w + b) + 1 / 2)
      have hsum : (M : ℚ) * w / (w + b) + (M : ℚ) * b / (w + b) = (M : ℚ) := by
        field_simp
        ring
      refine ⟨heq, ?_, ?_, ?_⟩ <;> rw [heq] <;> dsimp only <;> rw [abs_le] <;>
        push_cast [toNat_cast_q _ hrnw, toNat_cast_q _ hrnb] <;>
        unfold f32round at hrnw hrnb ⊢ <;>
        constructor <;> linarith
  · intro w b hw0 hw1 hb0 hb1
    constructor
    · intro hle
      have e1 : Ch32.satAdd w b = w + b := min_eq_left hle
      have e2 : Ch32.satSub (w + b) b = w := by
        unfold Ch32.satSub
        rw [show w + b - b = w from by ring, max_eq_left hw0]
      unfold HwbModel.whiteness_blackness32
      rw [e1, e2, if_neg (lt_irrefl w)]
    · intro hgt
      have hs0 : (0 : ℚ) < w + b := by linarith
      have e1 : Ch32.satAdd w b = 1 := min_eq_right hgt.le
      have e2 : Ch32.satSub 1 b = 1 - b := by
        unfold Ch32.satSub
        rw [max_eq_left (by linarith)]
      have hcond : Ch32.satSub (Ch32.satAdd w b) b < w := by
        rw [e1, e2]
        linarith
      have hargw : w * (1 / (w + b)) = w / (w + b) := by field_simp
      have hargb : b * (1 / (w + b)) = b / (w + b) := by field_simp
      have hwr : Ch32.new (F32.fin (w / (w + b))) = w / (w + b) := by
        simp only [Ch32.new]
        rw [if_neg (not_lt.mpr (by positivity)),
          if_neg (not_lt.mpr ((div_le_one hs0).mpr (by linarith)))]
      have hbr : Ch32.new (F32.fin (b / (w + b))) = b / (w + b) := by
        simp only [Ch32.new]
        rw [if_neg (not_lt.mpr (by positivity)),
          if_neg (not_lt.mpr ((div_le_one hs0).mpr (by linarith)))]
      refine ⟨?_, by field_simp, by ring⟩
      unfold HwbModel.whiteness_blackness32
      rw [if_pos hcond, hargw, hargb, hwr, hbr]

/-- C8 witness: the theorem applied at `M = 255` with `w = 200, b = 100`
(oversaturated: rescaled to `(170, 85)`, exact sum 255), at `M = 255` with
`w = b = 100` (unchanged), and at the `Ch32` channel with `w = b = 3/4`
(rescaled to exactly `(1/2, 1/2)`) and `w = b = 1/4` (unchanged). -/
theorem hwb_whiteness_blackness_norm_witness :
    HwbModel.whiteness_blackness 255 200 100 = (170, 85) ∧
      HwbModel.whiteness_blackness 255 100 100 = (100, 100) ∧
      HwbModel.whiteness_blackness32 (3 / 4) (3 / 4) = (1 / 2, 1 / 2) ∧
      HwbModel.whiteness_blackness32 (1 / 4) (1 / 4) = (1 / 4, 1 / 4) := by
  refine ⟨?_, ?_, ?_, ?_⟩
  · have h2 := ((hwb_whiteness_blackness_norm.1 255 200 100 (by norm_num)
      (by norm_num) (by norm_num)).2 (by norm_num)).1
    rw [h2]
    have r170 : f32round 170 = 170 := f32round_eq _ 170 (by norm_num) (by norm_num)
    have r85 : f32round 85 = 85 := f32round_eq _ 85 (by norm_num) (by norm_num)
    norm_num [r170, r85]
    exact ⟨rfl, rfl⟩
  · exact (hwb_whiteness_blackness_norm.1 255 100 100 (by norm_num) (by norm_num)
      (by norm_num)).1 (by norm_num)
  · have h2 := ((hwb_whiteness_blackness_norm.2 (3 / 4) (3 / 4) (by norm_num)
      (by norm_num) (by norm_num) (by norm_num)).2 (by norm_num)).1
    rw [h2]
    norm_num
  · exact (hwb_whiteness_blackness_norm.2 (1 / 4) (1 / 4) (by norm_num)
      (by norm_num) (by norm_num) (by norm_num)).1 (by norm_num)

/-- Coordinate/extent bounds under which no `i32` operation inside
`Region::intersection` can overflow (a quarter of the `i32` range). -/
def Region.small (r : Region) : Prop :=
  -1073741824 ≤ r.x ∧ r.x ≤ 1073741824 ∧ -1073741824 ≤ r.y ∧ r.y ≤ 1073741824 ∧
    0 ≤ r.width ∧ r.width ≤ 1073741824 ∧ 0 ≤ r.height ∧ r.height ≤ 1073741824

instance (r : Region) : Decidable r.small := by
  unfold Region.small
  infer_instance

/-- C9 counterexample: at extreme coordinates the wrapping
`(x1 - x0) as u32` cast in `Region::intersection` breaks
"disjoint → zero area": the regions `(2147483647, 0, 1, 1)` and
`(-2147483648, 0, 1, 1)` are disjoint (the second ends left of the first),
yet their intersection has width 2 and height 1 — nonzero area — because
`x1 - x0 = -4294967294` wraps to `2`. -/
theorem region_intersection_wrap_cex :
    (Region.intersection (Region.new 2147483647 0 1 1)
        (Region.new (-2147483648) 0 1 1)).width = 2 ∧
      (Region.intersection (Region.new 2147483647 0 1 1)
        (Region.new (-2147483648) 0 1 1)).height = 1 ∧
      (Region.new (-2147483648) 0 1 1).right ≤ (Region.new 2147483647 0 1 1).x := by
  decide

/-- C9 (amended): `Region::intersection` is commutative — argument order
never matters, for **all** regions; and for regions whose coordinates and
extents stay within a quarter of the `i32` range (so that the wrapping
`(x1 - x0) as u32` cast cannot overflow), disjoint regions intersect in a
region of zero area (zero width or zero height; a negatively computed
width collapses to an empty region).  At the extremes of the `i32` range
the zero-area property fails (see the counterexample). -/
theorem region_intersection_comm_disjoint :
    (∀ a b : Region, Region.intersection a b = Region.intersection b a) ∧
    (∀ a b : Region, a.small → b.small →
      (a.right ≤ b.x ∨ b.right ≤ a.x ∨ a.bottom ≤ b.y ∨ b.bottom ≤ a.y) →
      (Region.intersection a b).width = 0 ∨ (Region.intersection a b).height = 0) := by
  constructor
  · intro a b
    unfold Region.intersection
    rw [max_comm a.x b.x, max_comm a.y b.y, min_comm a.right b.right,
      min_comm a.bottom b.bottom]
  · intro a b ha hb hdisj
    obtain ⟨ha1, ha2, ha3, ha4, ha5, ha6, ha7, ha8⟩ := ha
    obtain ⟨hb1, hb2, hb3, hb4, hb5, hb6, hb7, hb8⟩ := hb
    simp only [Region.intersection, Region.new, Region.right, Region.bottom,
      sat32] at hdisj ⊢
    omega

/-- C9 witness: the amended theorem applied to the concrete disjoint pair
`(0, 0, 2, 2)` and `(5, 0, 2, 2)`. -/
theorem region_intersection_comm_disjoint_witness :
    Region.intersection (Region.new 0 0 2 2) (Region.new 5 0 2 2)
        = Region.intersection (Region.new 5 0 2 2) (Region.new 0 0 2 2) ∧
      ((Region.intersection (Region.new 0 0 2 2) (Region.new 5 0 2 2)).width = 0 ∨
        (Region.intersection (Region.new 0 0 2 2) (Region.new 5 0 2 2)).height = 0) :=
  ⟨region_intersection_comm_disjoint.1 _ _,
   region_intersection_comm_disjoint.2 _ _ (by decide) (by decide) (by decide)⟩

/-- C10: `with_u8_buffer` and `with_u16_buffer` require a nonzero pixel
count: for `width * height = 0` they panic (`assert!(len > 0)`) even on an
empty buffer, whose length (0) exactly equals `width * height *
pixel_size`; `with_color` (and hence `with_clear`, which delegates to it)
accepts the same zero dimensions and succeeds. -/
theorem raster_builder_zero_pixels (k width height : Nat) (clr : Nat)
    (hw : width ≤ 2147483647) (hh : height ≤ 2147483647)
    (h0 : width * height = 0) :
    RasterBuilder.with_u8_buffer k width height [] = none ∧
      RasterBuilder.with_u16_buffer k width height [] = none ∧
      ([] : List Nat).length = width * height * k ∧
      RasterBuilder.with_color width height clr
        = some ⟨width, height, fun _ _ => clr⟩ := by
  refine ⟨?_, ?_, ?_, ?_⟩
  · unfold RasterBuilder.with_u8_buffer
    rw [if_pos ⟨hw, hh⟩, if_pos h0]
  · unfold RasterBuilder.with_u16_buffer
    rw [if_pos ⟨hw, hh⟩, if_pos h0]
  · simp [h0]
  · unfold RasterBuilder.with_color
    rw [if_pos ⟨hw, hh⟩]

/-- C10 witness: the theorem applied at `width = 0`, `height = 5`,
`k = 3` channels. -/
theorem raster_builder_zero_pixels_witness :
    RasterBuilder.with_u8_buffer 3 0 5 [] = none ∧
      RasterBuilder.with_u16_buffer 3 0 5 [] = none ∧
      ([] : List Nat).length = 0 * 5 * 3 ∧
      RasterBuilder.with_color 0 5 (7 : Nat) = some ⟨0, 5, fun _ _ => 7⟩ :=
  raster_builder_zero_pixels 3 0 5 7 (by decide) (by decide) (by decide)

theorem raster_intersection_fields {γ : Type} (r : Raster γ) (reg : Region)
    (hw : r.width ≤ 2147483647) (hh : r.height ≤ 2147483647) :
    (r.intersection reg).x = max reg.x 0 ∧
    (r.intersection reg).y = max reg.y 0 ∧
    (r.intersection reg).width
      = max (min reg.right (r.width : Int) - max reg.x 0) 0 ∧
    (r.intersection reg).height
      = max (min reg.bottom (r.height : Int) - max reg.y 0) 0 := by
  have hw' : (r.width : Int) ≤ 2147483647 := by exact_mod_cast hw
  have hh' : (r.height : Int) ≤ 2147483647 := by exact_mod_cast hh
  unfold Raster.intersection Region.new
  refine ⟨rfl, rfl, ?_, ?_⟩
  · simp only
    rw [Int.toNat_of_nonneg (le_max_right _ _)]
    rw [if_pos (by omega)]
  · simp only
    rw [Int.toNat_of_nonneg (le_max_right _ _)]
    rw [if_pos (by omega)]

theorem wrap32_id (z : Int) (h1 : -2147483648 ≤ z) (h2 : z ≤ 2147483647) :
    wrap32 z = z := by
  unfold wrap32
  omega

theorem usizeOf_natCast (n : Nat) : usizeOf (n : Int) = n := by
  unfold usizeOf
  rw [if_pos (by positivity), Int.toNat_natCast]

theorem i32abs_neg_part (z : Int) (h : -2147483647 ≤ z) :
    i32abs (min z 0) = -(min z 0) := by
  unfold i32abs
  rw [if_neg (by omega), abs_of_nonpos (by omega)]

/-- C1 (amended): whenever the clipped-and-shifted copy rectangle lies
within both rasters (hypotheses `hbx`..`hcy`), `compose_raster` copies
exactly the visible overlap: each region is clipped to its raster's bounds
independently, the copy extent is the element-wise minimum of the two
clipped extents (`wd`, `ht`), each side's origin is shifted by the
negative-origin overhang the *other* side's clip discarded
(`i32abs (min fr.x 0)` resp. `i32abs (min toR.x 0)`), and every written
destination pixel `(px, py)` receives the converted source pixel at the
corresponding offset, all other pixels being left unchanged.  Without the
in-bounds hypotheses the operation can panic (see the counterexample and
C2). -/
theorem compose_raster_overlap {α β : Type} (cv : α → β) (dst : Raster β)
    (toR : Region) (src : Raster α) (fr : Region)
    (hdw : dst.width ≤ 2147483647) (hdh : dst.height ≤ 2147483647)
    (hsw : src.width ≤ 2147483647) (hsh : src.height ≤ 2147483647)
    (tox toy frx fry wd ht : Nat)
    (htox : (tox : Int) = (dst.intersection toR).x + i32abs (min fr.x 0))
    (htoy : (toy : Int) = (dst.intersection toR).y + i32abs (min fr.y 0))
    (hfrx : (frx : Int) = (src.intersection fr).x + i32abs (min toR.x 0))
    (hfry : (fry : Int) = (src.intersection fr).y + i32abs (min toR.y 0))
    (hwd : (wd : Int)
      = min (dst.intersection toR).width (src.intersection fr).width)
    (hht : (ht : Int)
      = min (dst.intersection toR).height (src.intersection fr).height)
    (hbx : tox + wd ≤ dst.width) (hby : toy + ht ≤ dst.height)
    (hcx : frx + wd ≤ src.width) (hcy : fry + ht ≤ src.height) :
    (Raster.compose_raster cv dst toR src fr).isSome = true ∧
    ∀ px py, ((Raster.compose_raster cv dst toR src fr).getD dst).pix px py =
      if tox ≤ px ∧ px < tox + wd ∧ toy ≤ py ∧ py < toy + ht then
        cv (src.pix (frx + (px - tox)) (fry + (py - toy)))
      else dst.pix px py := by
  have hres : Raster.compose_raster cv dst toR src fr
      = some (Raster.mk dst.width dst.height (fun px py =>
          if tox ≤ px ∧ px < tox + wd ∧ toy ≤ py ∧ py < toy + ht then
            cv (src.pix (frx + (px - tox)) (fry + (py - toy)))
          else dst.pix px py)) := by
    rcases Nat.eq_zero_or_pos wd with hw0 | hw1
    · subst hw0
      simp only [Raster.compose_raster]
      rw [if_neg (by omega)]
      obtain ⟨dw, dh, dp⟩ := dst
      simp only [Option.some.injEq]
      congr 1
      funext px py
      rw [if_neg (by omega)]
    · rcases Nat.eq_zero_or_pos ht with hh0 | hh1
      · subst hh0
        simp only [Raster.compose_raster]
        rw [if_neg (by omega)]
        obtain ⟨dw, dh, dp⟩ := dst
        simp only [Option.some.injEq]
        congr 1
        funext px py
        rw [if_neg (by omega)]
      · have etox : usizeOf (wrap32 ((dst.intersection toR).x
            + i32abs (min fr.x 0))) = tox := by
          rw [← htox, wrap32_id _ (by omega) (by omega),
            usizeOf_natCast]
        have etoy : usizeOf (wrap32 ((dst.intersection toR).y
            + i32abs (min fr.y 0))) = toy := by
          rw [← htoy, wrap32_id _ (by omega) (by omega),
            usizeOf_natCast]
        have efrx : usizeOf (wrap32 ((src.intersection fr).x
            + i32abs (min toR.x 0))) = frx := by
          rw [← hfrx, wrap32_id _ (by omega) (by omega),
            usizeOf_natCast]
        have efry : usizeOf (wrap32 ((src.intersection fr).y
            + i32abs (min toR.y 0))) = fry := by
          rw [← hfry, wrap32_id _ (by omega) (by omega),
            usizeOf_natCast]
        have ewd : (min (dst.intersection toR).width
            (src.intersection fr).width).toNat = wd := by
          rw [← hwd, Int.toNat_natCast]
        have eht : (min (dst.intersection toR).height
            (src.intersection fr).height).toNat = ht := by
          rw [← hht, Int.toNat_natCast]
        simp only [Raster.compose_raster]
        rw [if_pos ⟨by omega, by omega⟩]
        rw [etox, etoy, efrx, efry, ewd, eht]
        rw [if_neg (by omega)]
        have enrows : min (min ht (dst.height - toy)) (src.height - fry) = ht := by
          omega
        have encols : min (min wd (dst.width - tox)) (src.width - frx) = wd := by
          omega
        rw [enrows, encols]
  refine ⟨by rw [hres]; rfl, fun px py => by rw [hres]; rfl⟩

/-- C1 counterexample: the claim is not true for *every* pair of regions:
blitting with `to = (-5, 0, 9, 1)` between two 4×1 rasters shifts the
clipped source origin to column 5, past the source raster's width, and the
row-slice operation panics (modeled `none`) instead of copying the (empty)
visible overlap. -/
theorem compose_raster_shift_oob_cex :
    Raster.compose_raster (fun n : Nat => n) ⟨4, 1, fun _ _ => 0⟩
      (Region.new (-5) 0 9 1) ⟨4, 1, fun x _ => x + 1⟩ Region.all = none := by
  rfl

/-- C1 witness: the amended theorem applied to the claim's own example — a
3×3 source with pixel values 1..9 blitted at destination offset (-1,-1)
onto a 3×3 zero raster stores exactly the bottom-right 2×2 of the source
(values 5, 6, 8, 9) into the top-left 2×2 of the destination, all other
pixels staying 0. -/
theorem compose_raster_overlap_witness :
    (Raster.compose_raster (fun n : Nat => n) ⟨3, 3, fun _ _ => 0⟩
        (Region.new (-1) (-1) 3 3) ⟨3, 3, fun x y => x + 3 * y + 1⟩
        Region.all).isSome = true ∧
      ((Raster.compose_raster (fun n : Nat => n) ⟨3, 3, fun _ _ => 0⟩
          (Region.new (-1) (-1) 3 3) ⟨3, 3, fun x y => x + 3 * y + 1⟩
          Region.all).getD ⟨3, 3, fun _ _ => 0⟩).pix 0 0 = 5 ∧
      ((Raster.compose_raster (fun n : Nat => n) ⟨3, 3, fun _ _ => 0⟩
          (Region.new (-1) (-1) 3 3) ⟨3, 3, fun x y => x + 3 * y + 1⟩
          Region.all).getD ⟨3, 3, fun _ _ => 0⟩).pix 1 0 = 6 ∧
      ((Raster.compose_raster (fun n : Nat => n) ⟨3, 3, fun _ _ => 0⟩
          (Region.new (-1) (-1) 3 3) ⟨3, 3, fun x y => x + 3 * y + 1⟩
          Region.all).getD ⟨3, 3, fun _ _ => 0⟩).pix 0 1 = 8 ∧
      ((Raster.compose_raster (fun n : Nat => n) ⟨3, 3, fun _ _ => 0⟩
          (Region.new (-1) (-1) 3 3) ⟨3, 3, fun x y => x + 3 * y + 1⟩
          Region.all).getD ⟨3, 3, fun _ _ => 0⟩).pix 1 1 = 9 ∧
      ((Raster.compose_raster (fun n : Nat => n) ⟨3, 3, fun _ _ => 0⟩
          (Region.new (-1) (-1) 3 3) ⟨3, 3, fun x y => x + 3 * y + 1⟩
          Region.all).getD ⟨3, 3, fun _ _ => 0⟩).pix 2 0 = 0 ∧
      ((Raster.compose_raster (fun n : Nat => n) ⟨3, 3, fun _ _ => 0⟩
          (Region.new (-1) (-1) 3 3) ⟨3, 3, fun x y => x + 3 * y + 1⟩
          Region.all).getD ⟨3, 3, fun _ _ => 0⟩).pix 2 1 = 0 ∧
      ((Raster.compose_raster (fun n : Nat => n) ⟨3, 3, fun _ _ => 0⟩
          (Region.new (-1) (-1) 3 3) ⟨3, 3, fun x y => x + 3 * y + 1⟩
          Region.all).getD ⟨3, 3, fun _ _ => 0⟩).pix 0 2 = 0 ∧
      ((Raster.compose_raster (fun n : Nat => n) ⟨3, 3, fun _ _ => 0⟩
          (Region.new (-1) (-1) 3 3) ⟨3, 3, fun x y => x + 3 * y + 1⟩
          Region.all).getD ⟨3, 3, fun _ _ => 0⟩).pix 1 2 = 0 ∧
      ((Raster.compose_raster (fun n : Nat => n) ⟨3, 3, fun _ _ => 0⟩
          (Region.new (-1) (-1) 3 3) ⟨3, 3, fun x y => x + 3 * y + 1⟩
          Region.all).getD ⟨3, 3, fun _ _ => 0⟩).pix 2 2 = 0 := by
  have H := compose_raster_overlap (fun n : Nat => n) ⟨3, 3, fun _ _ => 0⟩
    (Region.new (-1) (-1) 3 3) ⟨3, 3, fun x y => x + 3 * y + 1⟩ Region.all
    (by decide) (by decide) (by decide) (by decide)
    0 0 1 1 2 2
    (by decide) (by decide) (by decide) (by decide) (by decide) (by decide)
    (by decide) (by decide) (by decide) (by decide)
  refine ⟨H.1, ?_, ?_, ?_, ?_, ?_, ?_, ?_, ?_, ?_⟩ <;>
    rw [H.2] <;> norm_num

/-- C2: evaluation of `compose_raster` at an input where it panics.  With a
3×1 destination, a 3×1 source, destination region `(-10, 0, 20, 1)` and
source region `(0, 0, 3, 1)`, the destination overhang `tx = 10` shifts
the clipped source region's origin to column 10; the source row has length
3, so `&srow[10..]` panics with a slice-index-out-of-range error (modeled
`none`) — `compose_raster` is not total and its source index leaves the
raster's bounds. -/
theorem compose_raster_panic_eval :
    Raster.compose_raster (fun n : Nat => n) ⟨3, 1, fun _ _ => 0⟩
      (Region.new (-10) 0 20 1) ⟨3, 1, fun x _ => x + 1⟩
      (Region.new 0 0 3 1) = none := by
  rfl
